import Mathlib

/-
Verification of the marionette 2D game-engine core.

The geometry kernel (src/engine/utils.py), the animation state machine and
outline extraction (src/engine/graphics.py) and the relevant parts of the
native binding layer (src/engine/sdl.py) are embedded shallowly: Python
complex numbers become pairs of rationals, mutable objects become explicit
state passing, the scheduler-driven callbacks become iterated step
functions, and the outline generator becomes a fuel-indexed loop.
-/

namespace Marionette

/-- A 2D vector: the embedding of a Python complex number, with the real
part as the horizontal and the imaginary part as the vertical component. -/
structure Vec2 where
  re : ℚ
  im : ℚ
deriving DecidableEq, Repr

instance : Add Vec2 := ⟨fun a b => ⟨a.re + b.re, a.im + b.im⟩⟩

instance : Sub Vec2 := ⟨fun a b => ⟨a.re - b.re, a.im - b.im⟩⟩

theorem Vec2.add_def (a b : Vec2) : a + b = ⟨a.re + b.re, a.im + b.im⟩ := rfl

theorem Vec2.sub_def (a b : Vec2) : a - b = ⟨a.re - b.re, a.im - b.im⟩ := rfl

/-- cross_product from src/engine/utils.py:
c1.real * c2.imag - c1.imag * c2.real. -/
def cross_product (c1 c2 : Vec2) : ℚ :=
  c1.re * c2.im - c1.im * c2.re

/-- dot_product from src/engine/utils.py. -/
def dot_product (c1 c2 : Vec2) : ℚ :=
  c1.re * c2.re + c1.im * c2.im

/-- magnitude_squared from src/engine/utils.py. -/
def magnitude_squared (c : Vec2) : ℚ :=
  c.re * c.re + c.im * c.im

/-- Python math.isclose with its default tolerances (rel_tol 1e-9,
abs_tol 0.0): abs (a - b) is at most the maximum of rel_tol times the
larger magnitude and abs_tol.  Over exact rationals this makes
isclose x 0 hold exactly when x = 0, since abs_tol is 0. -/
def isclose (a b : ℚ) : Bool :=
  decide (|a - b| ≤ max ((1 / 1000000000) * max |a| |b|) 0)

/-- Line from src/engine/utils.py: an origin point and an offset vector. -/
structure Line where
  origin : Vec2
  offset : Vec2
deriving DecidableEq, Repr

/-- Line.from_to. -/
def Line.from_to (origin endp : Vec2) : Line :=
  ⟨origin, endp - origin⟩

/-- Line.end (named end_point here because end is a Lean keyword). -/
def Line.end_point (l : Line) : Vec2 :=
  l.origin + l.offset

/-- The inner check_cross_products helper of Line.intersects:
both endpoints of second must straddle (non-strictly) the line through
first, excluding the case where both cross products are close to zero. -/
def check_cross_products (first second : Line) : Bool :=
  let p1 := cross_product (second.origin - first.origin) first.offset
  let p2 := cross_product (second.end_point - first.origin) first.offset
  ((decide (p1 ≥ 0) && decide ((0 : ℚ) ≥ p2)) || (decide (p2 ≥ 0) && decide ((0 : ℚ) ≥ p1))) &&
    !(isclose p1 0 && isclose p2 0)

/-- Line.intersects from src/engine/utils.py. -/
def Line.intersects (self other : Line) : Bool :=
  check_cross_products self other && check_cross_products other self

/-- Rectangle from src/engine/utils.py: an upper-left corner and a
dimensions vector.  The Python class is mutable; its property setters are
embedded as functions returning the updated rectangle. -/
structure Rectangle where
  upper_left : Vec2
  dimensions : Vec2
deriving DecidableEq, Repr

def Rectangle.left_real (r : Rectangle) : ℚ := r.upper_left.re

def Rectangle.right_real (r : Rectangle) : ℚ := r.upper_left.re + r.dimensions.re

def Rectangle.upper_imag (r : Rectangle) : ℚ := r.upper_left.im

def Rectangle.lower_imag (r : Rectangle) : ℚ := r.upper_left.im + r.dimensions.im

/-- left_real setter: upper_left = value + self.upper_imag * 1j. -/
def Rectangle.set_left_real (r : Rectangle) (value : ℚ) : Rectangle :=
  { r with upper_left := ⟨value, r.upper_imag⟩ }

/-- right_real setter: upper_left = value - self.dimensions.real + self.upper_imag * 1j. -/
def Rectangle.set_right_real (r : Rectangle) (value : ℚ) : Rectangle :=
  { r with upper_left := ⟨value - r.dimensions.re, r.upper_imag⟩ }

/-- upper_imag setter: upper_left = self.left_real + value * 1j. -/
def Rectangle.set_upper_imag (r : Rectangle) (value : ℚ) : Rectangle :=
  { r with upper_left := ⟨r.left_real, value⟩ }

/-- lower_imag setter: upper_left = self.left_real + (value - self.dimensions.imag) * 1j. -/
def Rectangle.set_lower_imag (r : Rectangle) (value : ℚ) : Rectangle :=
  { r with upper_left := ⟨r.left_real, value - r.dimensions.im⟩ }

def Rectangle.upper_right (r : Rectangle) : Vec2 :=
  r.upper_left + ⟨r.dimensions.re, 0⟩

def Rectangle.lower_left (r : Rectangle) : Vec2 :=
  r.upper_left + ⟨0, r.dimensions.im⟩

def Rectangle.lower_right (r : Rectangle) : Vec2 :=
  r.upper_left + r.dimensions

def Rectangle.center (r : Rectangle) : Vec2 :=
  r.upper_left + ⟨r.dimensions.re / 2, r.dimensions.im / 2⟩

/-- Rectangle.overlaps_on_real_axis from src/engine/utils.py, branching on
which rectangle has the larger real extent. -/
def Rectangle.overlaps_on_real_axis (self other : Rectangle) : Bool :=
  if self.dimensions.re ≥ other.dimensions.re then
    (decide (self.left_real ≤ other.left_real) && decide (other.left_real ≤ self.right_real)) ||
      (decide (self.left_real ≤ other.right_real) && decide (other.right_real ≤ self.right_real))
  else
    (decide (other.left_real ≤ self.left_real) && decide (self.left_real ≤ other.right_real)) ||
      (decide (other.left_real ≤ self.right_real) && decide (self.right_real ≤ other.right_real))

/-- Rectangle.overlaps_on_imag_axis from src/engine/utils.py. -/
def Rectangle.overlaps_on_imag_axis (self other : Rectangle) : Bool :=
  if self.dimensions.im ≥ other.dimensions.im then
    (decide (self.upper_imag ≤ other.upper_imag) && decide (other.upper_imag ≤ self.lower_imag)) ||
      (decide (self.upper_imag ≤ other.lower_imag) && decide (other.lower_imag ≤ self.lower_imag))
  else
    (decide (other.upper_imag ≤ self.upper_imag) && decide (self.upper_imag ≤ other.lower_imag)) ||
      (decide (other.upper_imag ≤ self.lower_imag) && decide (self.lower_imag ≤ other.lower_imag))

/-- Rectangle.overlaps from src/engine/utils.py. -/
def Rectangle.overlaps (self other : Rectangle) : Bool :=
  self.overlaps_on_real_axis other && self.overlaps_on_imag_axis other

/-- Rectangle.contains_point from src/engine/utils.py. -/
def Rectangle.contains_point (self : Rectangle) (point : Vec2) : Bool :=
  decide (self.left_real ≤ point.re) && decide (point.re ≤ self.right_real) &&
    decide (self.upper_imag ≤ point.im) && decide (point.im ≤ self.lower_imag)

/-- scale_coordinates from src/engine/graphics.py: per-axis linear scaling
of a coordinate vector by new_dimensions over the view's dimensions. -/
def scale_coordinates (view : Rectangle) (coordinates : Vec2) (new_dimensions : Vec2) : Vec2 :=
  ⟨coordinates.re * new_dimensions.re / view.dimensions.re,
   coordinates.im * new_dimensions.im / view.dimensions.im⟩

/-- scale_rectangle from src/engine/graphics.py: the origin is translated
by the view's upper-left and scaled, the dimensions are scaled directly. -/
def scale_rectangle (view : Rectangle) (rectangle : Rectangle) (new_dimensions : Vec2) : Rectangle :=
  ⟨scale_coordinates view (rectangle.upper_left - view.upper_left) new_dimensions,
   scale_coordinates view rectangle.dimensions new_dimensions⟩

/-- scale_line from src/engine/graphics.py. -/
def scale_line (view : Rectangle) (line : Line) (new_dimensions : Vec2) : Line :=
  ⟨scale_coordinates view (line.origin - view.upper_left) new_dimensions,
   scale_coordinates view line.offset new_dimensions⟩

/-- Claim C1, counterexample: setting right_real does not leave the
opposite edge (left_real) unchanged.  For the rectangle with upper-left 0
and dimensions 1 + 1j, setting right_real to 5 moves left_real from 0
to 4, because the setter holds the dimensions fixed and translates the
whole rectangle. -/
theorem rectangle_set_right_real_moves_left_real :
    ¬ (((Rectangle.mk ⟨0, 0⟩ ⟨1, 1⟩).set_right_real 5).left_real =
      (Rectangle.mk ⟨0, 0⟩ ⟨1, 1⟩).left_real) := by
  simp [Rectangle.set_right_real, Rectangle.left_real, Rectangle.upper_imag]
  norm_num

/-- Claim C1, amended: for every Rectangle and every edge setter, setting
that edge to V and reading the same edge back returns V, and the
dimensions and the perpendicular-axis coordinate of the upper-left corner
are unchanged; the opposite edge does not stay fixed but moves so as to
keep the dimensions, ending at V minus (or plus) the corresponding
dimension. -/
theorem rectangle_edge_setter_round_trip (r : Rectangle) (v : ℚ) :
    ((r.set_left_real v).left_real = v ∧
      (r.set_left_real v).dimensions = r.dimensions ∧
      (r.set_left_real v).upper_imag = r.upper_imag ∧
      (r.set_left_real v).right_real = v + r.dimensions.re) ∧
    ((r.set_right_real v).right_real = v ∧
      (r.set_right_real v).dimensions = r.dimensions ∧
      (r.set_right_real v).upper_imag = r.upper_imag ∧
      (r.set_right_real v).left_real = v - r.dimensions.re) ∧
    ((r.set_upper_imag v).upper_imag = v ∧
      (r.set_upper_imag v).dimensions = r.dimensions ∧
      (r.set_upper_imag v).left_real = r.left_real ∧
      (r.set_upper_imag v).lower_imag = v + r.dimensions.im) ∧
    ((r.set_lower_imag v).lower_imag = v ∧
      (r.set_lower_imag v).dimensions = r.dimensions ∧
      (r.set_lower_imag v).left_real = r.left_real ∧
      (r.set_lower_imag v).upper_imag = v - r.dimensions.im) := by
  refine ⟨⟨?_, ?_, ?_, ?_⟩, ⟨?_, ?_, ?_, ?_⟩, ⟨?_, ?_, ?_, ?_⟩, ⟨?_, ?_, ?_, ?_⟩⟩ <;>
    simp [Rectangle.set_left_real, Rectangle.set_right_real, Rectangle.set_upper_imag,
      Rectangle.set_lower_imag, Rectangle.left_real, Rectangle.right_real,
      Rectangle.upper_imag, Rectangle.lower_imag]

/-- Claim C6: the diagonal segments from (0,0) to (10,10) and from (0,10)
to (10,0) intersect; the parallel horizontal segments from (0,0) to (10,0)
and from (0,5) to (10,5) do not; the overlapping collinear segments from
(0,0) to (10,0) and from (5,0) to (15,0) are reported as not intersecting
because both cross products on one side are approximately zero. -/
theorem line_intersects_cases :
    (Line.from_to ⟨0, 0⟩ ⟨10, 10⟩).intersects (Line.from_to ⟨0, 10⟩ ⟨10, 0⟩) = true ∧
    (Line.from_to ⟨0, 0⟩ ⟨10, 0⟩).intersects (Line.from_to ⟨0, 5⟩ ⟨10, 5⟩) = false ∧
    (Line.from_to ⟨0, 0⟩ ⟨10, 0⟩).intersects (Line.from_to ⟨5, 0⟩ ⟨15, 0⟩) = false := by
  refine ⟨?_, ?_, ?_⟩ <;>
    · simp only [Line.intersects, check_cross_products, Line.from_to, Line.end_point,
        cross_product, isclose, Vec2.sub_def, Vec2.add_def]
      norm_num

/-- Overlap testing on the real axis is symmetric even though the code
branches on which rectangle has the larger real extent. -/
theorem overlaps_on_real_axis_symm (a b : Rectangle) :
    a.overlaps_on_real_axis b = b.overlaps_on_real_axis a := by
  unfold Rectangle.overlaps_on_real_axis
  rcases lt_trichotomy a.dimensions.re b.dimensions.re with h | h | h
  · rw [if_neg (not_le.mpr h), if_pos h.le]
  · rw [if_pos (ge_of_eq h), if_pos (ge_of_eq h.symm)]
    rw [Bool.eq_iff_iff]
    simp only [Bool.or_eq_true, Bool.and_eq_true, decide_eq_true_eq,
      Rectangle.left_real, Rectangle.right_real]
    constructor
    · rintro (⟨h1, h2⟩ | ⟨h1, h2⟩)
      · right; constructor <;> linarith
      · left; constructor <;> linarith
    · rintro (⟨h1, h2⟩ | ⟨h1, h2⟩)
      · right; constructor <;> linarith
      · left; constructor <;> linarith
  · rw [if_pos h.le, if_neg (not_le.mpr h)]

/-- Overlap testing on the imaginary axis is symmetric. -/
theorem overlaps_on_imag_axis_symm (a b : Rectangle) :
    a.overlaps_on_imag_axis b = b.overlaps_on_imag_axis a := by
  unfold Rectangle.overlaps_on_imag_axis
  rcases lt_trichotomy a.dimensions.im b.dimensions.im with h | h | h
  · rw [if_neg (not_le.mpr h), if_pos h.le]
  · rw [if_pos (ge_of_eq h), if_pos (ge_of_eq h.symm)]
    rw [Bool.eq_iff_iff]
    simp only [Bool.or_eq_true, Bool.and_eq_true, decide_eq_true_eq,
      Rectangle.upper_imag, Rectangle.lower_imag]
    constructor
    · rintro (⟨h1, h2⟩ | ⟨h1, h2⟩)
      · right; constructor <;> linarith
      · left; constructor <;> linarith
    · rintro (⟨h1, h2⟩ | ⟨h1, h2⟩)
      · right; constructor <;> linarith
      · left; constructor <;> linarith
  · rw [if_pos h.le, if_neg (not_le.mpr h)]

/-- Claim C10: rectangle overlap testing is symmetric, on the combined
test and on each single axis, for rectangles with non-negative
dimensions. -/
theorem rectangle_overlaps_symm (a b : Rectangle)
    (ha_re : 0 ≤ a.dimensions.re) (ha_im : 0 ≤ a.dimensions.im)
    (hb_re : 0 ≤ b.dimensions.re) (hb_im : 0 ≤ b.dimensions.im) :
    a.overlaps b = b.overlaps a ∧
    a.overlaps_on_real_axis b = b.overlaps_on_real_axis a ∧
    a.overlaps_on_imag_axis b = b.overlaps_on_imag_axis a := by
  refine ⟨?_, overlaps_on_real_axis_symm a b, overlaps_on_imag_axis_symm a b⟩
  unfold Rectangle.overlaps
  rw [overlaps_on_real_axis_symm a b, overlaps_on_imag_axis_symm a b]

/-- Witness for claim C10 at concrete rectangles. -/
theorem rectangle_overlaps_symm_witness :
    ((0 : ℚ) ≤ 2 ∧ (0 : ℚ) ≤ 3 ∧ (0 : ℚ) ≤ 1) ∧
    ((Rectangle.mk ⟨0, 0⟩ ⟨2, 2⟩).overlaps (Rectangle.mk ⟨1, 1⟩ ⟨3, 1⟩) =
        (Rectangle.mk ⟨1, 1⟩ ⟨3, 1⟩).overlaps (Rectangle.mk ⟨0, 0⟩ ⟨2, 2⟩) ∧
      (Rectangle.mk ⟨0, 0⟩ ⟨2, 2⟩).overlaps_on_real_axis (Rectangle.mk ⟨1, 1⟩ ⟨3, 1⟩) =
        (Rectangle.mk ⟨1, 1⟩ ⟨3, 1⟩).overlaps_on_real_axis (Rectangle.mk ⟨0, 0⟩ ⟨2, 2⟩) ∧
      (Rectangle.mk ⟨0, 0⟩ ⟨2, 2⟩).overlaps_on_imag_axis (Rectangle.mk ⟨1, 1⟩ ⟨3, 1⟩) =
        (Rectangle.mk ⟨1, 1⟩ ⟨3, 1⟩).overlaps_on_imag_axis (Rectangle.mk ⟨0, 0⟩ ⟨2, 2⟩)) :=
  ⟨⟨by norm_num, by norm_num, by norm_num⟩,
    rectangle_overlaps_symm (Rectangle.mk ⟨0, 0⟩ ⟨2, 2⟩) (Rectangle.mk ⟨1, 1⟩ ⟨3, 1⟩)
      (by norm_num) (by norm_num) (by norm_num) (by norm_num)⟩

/-- Claim C5: for a view with non-zero dimensions on both axes, the
camera scaling maps a world point p to the window point given by
independent per-axis linear scaling; a rectangle's origin is translated
then scaled while its dimensions are scaled without translation; and in
particular with view origin (0,0), size (100,50) and window (200,100),
the world point (50,25) maps to (100,50) and a rectangle covering the
full view maps to one covering the full window. -/
theorem camera_scaling (view : Rectangle) (window_dimensions : Vec2)
    (hre : view.dimensions.re ≠ 0) (him : view.dimensions.im ≠ 0) :
    (∀ p : Vec2, scale_coordinates view (p - view.upper_left) window_dimensions =
      ⟨(p.re - view.upper_left.re) * window_dimensions.re / view.dimensions.re,
       (p.im - view.upper_left.im) * window_dimensions.im / view.dimensions.im⟩) ∧
    (∀ rect : Rectangle, scale_rectangle view rect window_dimensions =
      ⟨scale_coordinates view (rect.upper_left - view.upper_left) window_dimensions,
       scale_coordinates view rect.dimensions window_dimensions⟩) ∧
    scale_coordinates (Rectangle.mk ⟨0, 0⟩ ⟨100, 50⟩) (Vec2.mk 50 25 - ⟨0, 0⟩) ⟨200, 100⟩ =
      ⟨100, 50⟩ ∧
    scale_rectangle (Rectangle.mk ⟨0, 0⟩ ⟨100, 50⟩) (Rectangle.mk ⟨0, 0⟩ ⟨100, 50⟩) ⟨200, 100⟩ =
      ⟨⟨0, 0⟩, ⟨200, 100⟩⟩ := by
  refine ⟨fun p => rfl, fun rect => rfl, ?_, ?_⟩ <;>
    simp [scale_rectangle, scale_coordinates, Vec2.sub_def] <;> norm_num

/-- Witness for claim C5 at the concrete view of the spec's example. -/
theorem camera_scaling_witness :
    ((Rectangle.mk ⟨0, 0⟩ ⟨100, 50⟩).dimensions.re ≠ 0 ∧
      (Rectangle.mk ⟨0, 0⟩ ⟨100, 50⟩).dimensions.im ≠ 0) ∧
    scale_coordinates (Rectangle.mk ⟨0, 0⟩ ⟨100, 50⟩) (Vec2.mk 50 25 - ⟨0, 0⟩) ⟨200, 100⟩ =
      ⟨100, 50⟩ :=
  ⟨⟨by norm_num, by norm_num⟩,
    ((camera_scaling (Rectangle.mk ⟨0, 0⟩ ⟨100, 50⟩) ⟨200, 100⟩
      (by norm_num) (by norm_num)).2.2).1⟩

/-- Animation from src/engine/graphics.py: a starting frame rectangle, a
frame count, a per-frame delay in ticks, and the mutable current frame
index (an unbounded Python int, embedded as an integer). -/
structure Animation where
  starting_frame : Rectangle
  frame_count : ℤ
  frame_delay : ℤ
  current_frame_num : ℤ
deriving DecidableEq, Repr

/-- Animation.is_done: current_frame_num >= frame_count. -/
def Animation.is_done (a : Animation) : Bool :=
  decide (a.current_frame_num ≥ a.frame_count)

/-- Animation.advance: increments current_frame_num.  The done() hook it
may then invoke is a no-op in the base class, so it has no effect on the
embedded state. -/
def Animation.advance (a : Animation) : Animation :=
  { a with current_frame_num := a.current_frame_num + 1 }

/-- Animation.reset: forces current_frame_num back to 0. -/
def Animation.reset (a : Animation) : Animation :=
  { a with current_frame_num := 0 }

/-- Animation.active_frame: the source rectangle of the current frame,
offset horizontally by width times current_frame_num from starting_frame. -/
def Animation.active_frame (a : Animation) : Rectangle :=
  ⟨⟨a.starting_frame.upper_left.re +
      a.starting_frame.dimensions.re * (a.current_frame_num : ℚ),
    a.starting_frame.upper_left.im⟩,
   a.starting_frame.dimensions⟩

/-- One firing of the one-shot callback registered by Animation.play_once:
if the animation is already done it returns without advancing and without
re-registering; otherwise it advances and re-registers the same one-shot
callback, so successive firings iterate this function. -/
def Animation.play_once_fire (a : Animation) : Animation :=
  if a.is_done then a else a.advance

/-- One firing of the repeating callback registered by Animation.loop:
it advances, and when advancing has just reached done it immediately
resets to frame 0. -/
def Animation.loop_fire (a : Animation) : Animation :=
  let advanced := a.advance
  if advanced.is_done then advanced.reset else advanced

theorem iterate_play_once_frame_count (a : Animation) (k : ℕ) :
    (Animation.play_once_fire^[k] a).frame_count = a.frame_count := by
  induction k with
  | zero => rfl
  | succ k ih =>
    rw [Function.iterate_succ_apply']
    set b := Animation.play_once_fire^[k] a
    simp only [Animation.play_once_fire]
    split <;> simpa [Animation.advance] using ih

/-- Claim C3: an Animation started via play_once from frame 0 with
frame_count at least 1 advances by exactly one per callback firing until
current_frame_num reaches frame_count, and once done no further firing
ever changes it: after k firings the frame number is min k frame_count,
so in particular it stays at frame_count forever (no reset). -/
theorem animation_play_once_firings (a : Animation) (k : ℕ)
    (h0 : a.current_frame_num = 0) (h1 : 1 ≤ a.frame_count) :
    (Animation.play_once_fire^[k] a).current_frame_num = min (k : ℤ) a.frame_count ∧
    (a.frame_count ≤ (k : ℤ) →
      (Animation.play_once_fire^[k] a).current_frame_num = a.frame_count) := by
  have main : ∀ m : ℕ,
      (Animation.play_once_fire^[m] a).current_frame_num = min (m : ℤ) a.frame_count := by
    intro m
    induction m with
    | zero => simpa [h0] using (min_eq_left (by omega : (0 : ℤ) ≤ a.frame_count)).symm
    | succ m ih =>
      rw [Function.iterate_succ_apply']
      have hfc := iterate_play_once_frame_count a m
      set b := Animation.play_once_fire^[m] a
      simp only [Animation.play_once_fire, Animation.is_done]
      split
      next hdone =>
        rw [decide_eq_true_eq] at hdone
        push_cast
        omega
      next hnot =>
        rw [decide_eq_true_eq] at hnot
        simp only [Animation.advance]
        push_cast
        omega
  exact ⟨main k, fun hk => by rw [main k]; omega⟩

/-- Witness for claim C3: with frame_count 3 and frame_delay 1, five
firings leave the frame number at min 5 3 = 3. -/
theorem animation_play_once_firings_witness :
    ((Animation.mk ⟨⟨0, 0⟩, ⟨16, 16⟩⟩ 3 1 0).current_frame_num = 0 ∧
      1 ≤ (Animation.mk ⟨⟨0, 0⟩, ⟨16, 16⟩⟩ 3 1 0).frame_count) ∧
    (Animation.play_once_fire^[5]
      (Animation.mk ⟨⟨0, 0⟩, ⟨16, 16⟩⟩ 3 1 0)).current_frame_num =
        min (5 : ℤ) (Animation.mk ⟨⟨0, 0⟩, ⟨16, 16⟩⟩ 3 1 0).frame_count :=
  ⟨⟨rfl, by norm_num⟩,
    (animation_play_once_firings (Animation.mk ⟨⟨0, 0⟩, ⟨16, 16⟩⟩ 3 1 0) 5 rfl
      (by norm_num)).1⟩

theorem iterate_loop_fire_frame_count (a : Animation) (k : ℕ) :
    (Animation.loop_fire^[k] a).frame_count = a.frame_count := by
  induction k with
  | zero => rfl
  | succ k ih =>
    rw [Function.iterate_succ_apply']
    set b := Animation.loop_fire^[k] a
    simp only [Animation.loop_fire]
    split <;> simpa [Animation.advance, Animation.reset] using ih

/-- Claim C4: an Animation started via loop from frame 0 with frame_count
n at least 1 satisfies, after k firings of the repeating callback,
current_frame_num = k mod n: each firing advances by one and the firing
that reaches done immediately resets to 0, so the frame number returns to
0 exactly every n firings, indefinitely. -/
theorem animation_loop_firings (a : Animation) (k : ℕ)
    (h0 : a.current_frame_num = 0) (h1 : 1 ≤ a.frame_count) :
    (Animation.loop_fire^[k] a).current_frame_num = (k : ℤ) % a.frame_count := by
  induction k with
  | zero => simpa [h0] using (Int.zero_emod a.frame_count).symm
  | succ k ih =>
    rw [Function.iterate_succ_apply']
    have hfc := iterate_loop_fire_frame_count a k
    have hn : a.frame_count ≠ 0 := by omega
    have hc0 : 0 ≤ (k : ℤ) % a.frame_count := Int.emod_nonneg _ hn
    have hcn : (k : ℤ) % a.frame_count < a.frame_count :=
      Int.emod_lt_of_pos _ (by omega)
    have key : ((k : ℤ) % a.frame_count + 1) % a.frame_count =
        ((k : ℤ) + 1) % a.frame_count := Int.emod_add_emod _ _ _
    set b := Animation.loop_fire^[k] a
    simp only [Animation.loop_fire, Animation.is_done]
    split
    next hdone =>
      rw [decide_eq_true_eq] at hdone
      simp only [Animation.advance, Animation.reset] at hdone ⊢
      rw [ih, hfc] at hdone
      have hend : (k : ℤ) % a.frame_count + 1 = a.frame_count := by omega
      push_cast
      rw [← key, hend, Int.emod_self]
    next hnot =>
      rw [decide_eq_true_eq] at hnot
      simp only [Animation.advance, Animation.reset] at hnot ⊢
      rw [ih, hfc] at hnot
      rw [ih]
      push_cast
      rw [← key]
      exact (Int.emod_eq_of_lt (by omega) (by omega)).symm

/-- Witness for claim C4: with frame_count 3, after seven firings of the
looped callback the frame number is 7 mod 3 = 1. -/
theorem animation_loop_firings_witness :
    ((Animation.mk ⟨⟨0, 0⟩, ⟨16, 16⟩⟩ 3 1 0).current_frame_num = 0 ∧
      1 ≤ (Animation.mk ⟨⟨0, 0⟩, ⟨16, 16⟩⟩ 3 1 0).frame_count) ∧
    (Animation.loop_fire^[7]
      (Animation.mk ⟨⟨0, 0⟩, ⟨16, 16⟩⟩ 3 1 0)).current_frame_num =
        (7 : ℤ) % (Animation.mk ⟨⟨0, 0⟩, ⟨16, 16⟩⟩ 3 1 0).frame_count :=
  ⟨⟨rfl, by norm_num⟩,
    animation_loop_firings (Animation.mk ⟨⟨0, 0⟩, ⟨16, 16⟩⟩ 3 1 0) 7 rfl (by norm_num)⟩

/-- Claim C7: active_frame offsets the starting frame horizontally by
width times current_frame_num, keeps the row and keeps the dimensions; in
particular with starting frame at (0,0), size (16,16) and frame 2 it is
the rectangle at (32,0) with size (16,16). -/
theorem animation_active_frame (a : Animation) (n d : ℤ) :
    (a.active_frame.upper_left.re =
        a.starting_frame.upper_left.re +
          a.starting_frame.dimensions.re * (a.current_frame_num : ℚ) ∧
      a.active_frame.upper_left.im = a.starting_frame.upper_left.im ∧
      a.active_frame.dimensions = a.starting_frame.dimensions) ∧
    (Animation.mk ⟨⟨0, 0⟩, ⟨16, 16⟩⟩ n d 2).active_frame = ⟨⟨32, 0⟩, ⟨16, 16⟩⟩ := by
  refine ⟨⟨rfl, rfl, rfl⟩, ?_⟩
  simp [Animation.active_frame]
  norm_num

/-- The outcome of the block guarded by the destroying context manager in
src/engine/sdl.py: the caller's code either finishes normally with a
value or raises an error. -/
inductive ScopeOutcome (ε α : Type) where
  | ok (value : α)
  | raised (error : ε)
deriving DecidableEq, Repr

/-- The argument accepted by destroying: a single destroyable resource or
a list of them (the code dispatches on isinstance(resource, list)). -/
inductive ResourceArg (R : Type) where
  | single (resource : R)
  | items (resources : List R)
deriving DecidableEq, Repr

/-- The sequence of destroy() calls the finally block of destroying makes:
the whole list in order when the argument is a list, else the one
resource. -/
def destroy_calls {R : Type} : ResourceArg R → List R
  | .single resource => [resource]
  | .items resources => resources

/-- destroying from src/engine/sdl.py: yield the resource to the scoped
block, and in a finally clause destroy every wrapped resource.  The
embedding returns the propagated outcome of the block together with the
list of destroy() calls performed on scope exit; because the cleanup sits
in a finally clause it runs for both outcomes. -/
def destroying {R ε α : Type} (resource : ResourceArg R)
    (block : ScopeOutcome ε α) : ScopeOutcome ε α × List R :=
  (block, destroy_calls resource)

/-- Claim C8: destroying invokes destroy on every item on scope exit, for
a single resource and for a sequence of three resources, whether the
scoped block finished normally or raised an error partway through. -/
theorem destroying_destroys_all {R ε α : Type} (r1 r2 r3 single_r : R)
    (block : ScopeOutcome ε α) :
    (destroying (.items [r1, r2, r3]) block).2 = [r1, r2, r3] ∧
    r1 ∈ (destroying (.items [r1, r2, r3]) block).2 ∧
    r2 ∈ (destroying (.items [r1, r2, r3]) block).2 ∧
    r3 ∈ (destroying (.items [r1, r2, r3]) block).2 ∧
    (∀ e : ε, (destroying (ε := ε) (α := α) (.items [r1, r2, r3]) (.raised e)).2 =
      [r1, r2, r3]) ∧
    (destroying (.single single_r) block).2 = [single_r] ∧
    (destroying (.items [r1, r2, r3]) block).1 = block := by
  simp [destroying, destroy_calls]

/-- The possible outcomes of Renderer.draw_rectangle in src/engine/sdl.py. -/
inductive DrawRectangleOutcome where
  | drawn
  | sdl_error
  | not_implemented_error
deriving DecidableEq, Repr

/-- Renderer.draw_rectangle from src/engine/sdl.py, embedded over the
return code the native SDL_RenderFillRect call would report: with fill it
performs the native filled-rectangle call and raises SDLError exactly on
a negative return; without fill it raises NotImplementedError before any
native call.  The boolean records whether the native draw call was
performed. -/
def draw_rectangle (rectangle : Rectangle) (fill : Bool)
    (native_fill_rect_result : ℤ) : DrawRectangleOutcome × Bool :=
  if fill then
    if native_fill_rect_result < 0 then (.sdl_error, true) else (.drawn, true)
  else
    (.not_implemented_error, false)

/-- Claim C9: for every rectangle, draw_rectangle with fill = false raises
a not-implemented error and performs no native draw call, while with
fill = true the native filled draw is performed and an SDL error is
raised exactly when the native call reports failure. -/
theorem draw_rectangle_fill_flag (rectangle : Rectangle) (native_result : ℤ) :
    draw_rectangle rectangle false native_result = (.not_implemented_error, false) ∧
    (draw_rectangle rectangle true native_result).2 = true ∧
    ((draw_rectangle rectangle true native_result).1 = .sdl_error ↔ native_result < 0) ∧
    (¬ native_result < 0 →
      draw_rectangle rectangle true native_result = (.drawn, true)) := by
  refine ⟨rfl, ?_, ?_, ?_⟩ <;>
    · simp only [draw_rectangle, if_true]
      split <;> simp_all

/-- Color from src/engine/sdl.py: four integer channels, alpha defaulting
to 255. -/
structure Color where
  r : ℤ
  g : ℤ
  b : ℤ
  a : ℤ := 255
deriving DecidableEq, Repr

/-- Pixels from src/engine/graphics.py: a row-major grid of colors. -/
abbrev Pixels := List (List Color)

/-- Modelled from the spec: the 8-way compass Direction used by
find_outline is not defined in the provided source (src/engine/utils.py
only defines the 3-valued Direction), and spec section 9 asks for an
8-way compass enumeration with coordinates (the unit step vector of each
direction), next_clockwise (a rotation by one eighth-turn) and from_int,
whose exact ordering is left open and is to be chosen so as to reproduce
the described outline behavior.  Directions are embedded as the integers
0..7, enumerated counterclockwise on the pixel grid (whose y axis grows
downward) starting from up, so the unit step of each value is the one
below. -/
def direction_coordinates : ℕ → ℤ × ℤ
  | 0 => (0, -1)
  | 1 => (-1, -1)
  | 2 => (-1, 0)
  | 3 => (-1, 1)
  | 4 => (0, 1)
  | 5 => (1, 1)
  | 6 => (1, 0)
  | _ => (1, -1)

/-- Modelled from the spec: Direction.UPPER_RIGHT, the initial stepping
direction of find_outline, is the value with unit step (1, -1). -/
def UPPER_RIGHT : ℕ := 7

/-- Modelled from the spec: Direction.from_int wraps an integer index
onto the eight compass values. -/
def direction_from_int (n : ℕ) : ℕ := n % 8

/-- Modelled from the spec: Direction.next_clockwise rotates one
eighth-turn clockwise on the grid, which steps one value backwards in the
counterclockwise enumeration above. -/
def next_clockwise (d : ℕ) : ℕ := direction_from_int (d + 7)

/-- next_outline_direction from src/engine/graphics.py: even direction
values advance by one, odd values by two, through Direction.from_int. -/
def next_outline_direction (d : ℕ) : ℕ :=
  if d % 2 = 0 then direction_from_int (d + 1) else direction_from_int (d + 2)

/-- One step from a position in a direction: position plus
direction.coordinates.  Outline positions are Python complex numbers that
stay on the integer grid (the start is integral and every step adds a
unit vector), so they are embedded as integer pairs and the int() calls
on their components are the identity. -/
def pstep (position : ℤ × ℤ) (d : ℕ) : ℤ × ℤ :=
  (position.1 + (direction_coordinates d).1, position.2 + (direction_coordinates d).2)

/-- The guard of find_outline's acceptance test in src/engine/graphics.py:
0 <= y < len(pixels) and 0 <= x < len(pixels[0]) and pixels[y][x].a != 0,
with the same left-to-right short-circuit structure. -/
def pixel_test (pixels : Pixels) (p : ℤ × ℤ) : Bool :=
  decide (0 ≤ p.2) && decide (p.2 < (pixels.length : ℤ)) &&
    decide (0 ≤ p.1) && decide (p.1 < ((pixels.headD []).length : ℤ)) &&
    decide (((pixels.getD p.2.toNat []).getD p.1.toNat (Color.mk 0 0 0 0)).a ≠ 0)

/-- The loop of find_outline from src/engine/graphics.py, embedded with a
fuel bound on the number of loop iterations: compute new_position one
step ahead; if it equals the starting position the trace is closed and
the accumulated points are returned (the generator ends); if it is in
bounds and non-transparent it is accepted as the next outline point and
the direction advances by next_outline_direction; otherwise the direction
rotates clockwise by one step without moving.  Points are accumulated in
reverse order; none means the loop did not close within the fuel. -/
def outlineLoop (pixels : Pixels) (start : ℤ × ℤ) :
    ℕ → ℤ × ℤ → ℕ → List (ℤ × ℤ) → Option (List (ℤ × ℤ))
  | 0, _, _, _ => none
  | fuel + 1, position, direction, acc =>
    let new_position := pstep position direction
    if new_position = start then some acc.reverse
    else if pixel_test pixels new_position then
      outlineLoop pixels start fuel new_position (next_outline_direction direction)
        (new_position :: acc)
    else
      outlineLoop pixels start fuel position (next_clockwise direction) acc

/-- The inner scan of outline_starting_position over one row: the index
of the first color with non-zero alpha. -/
def row_first_solid : List Color → ℕ → Option ℕ
  | [], _ => none
  | c :: rest, x => if c.a ≠ 0 then some x else row_first_solid rest (x + 1)

/-- The row-by-row scan of outline_starting_position. -/
def scan_rows : Pixels → ℕ → Option (ℤ × ℤ)
  | [], _ => none
  | row :: rest, y =>
    match row_first_solid row 0 with
    | some x => some ((x : ℤ), (y : ℤ))
    | none => scan_rows rest (y + 1)

/-- outline_starting_position from src/engine/graphics.py: the first
pixel with non-zero alpha scanning rows top to bottom and columns left to
right; the source asserts when every pixel is transparent, embedded as
the none case. -/
def outline_starting_position (pixels : Pixels) : Option (ℤ × ℤ) :=
  scan_rows pixels 0

/-- find_outline from src/engine/graphics.py: yield the starting
position, then run the boundary-following loop with initial direction
Direction.UPPER_RIGHT. -/
def find_outline (fuel : ℕ) (pixels : Pixels) : Option (List (ℤ × ℤ)) :=
  match outline_starting_position pixels with
  | none => none
  | some s => outlineLoop pixels s fuel s UPPER_RIGHT [s]

/-- The bounds predicate of an N by N grid, as a single decidable test. -/
def in_square (N : ℕ) (p : ℤ × ℤ) : Bool :=
  decide (0 ≤ p.1 ∧ p.1 < (N : ℤ) ∧ 0 ≤ p.2 ∧ p.2 < (N : ℤ))

theorem outlineLoop_close (pixels : Pixels) (start position : ℤ × ℤ) (d : ℕ)
    (fuel : ℕ) (acc : List (ℤ × ℤ)) (h : pstep position d = start) :
    outlineLoop pixels start (fuel + 1) position d acc = some acc.reverse := by
  simp [outlineLoop, h]

theorem outlineLoop_fail (pixels : Pixels) (start position : ℤ × ℤ) (d : ℕ)
    (fuel : ℕ) (acc : List (ℤ × ℤ)) (h1 : pstep position d ≠ start)
    (h2 : pixel_test pixels (pstep position d) = false) :
    outlineLoop pixels start (fuel + 1) position d acc =
      outlineLoop pixels start fuel position (next_clockwise d) acc := by
  simp [outlineLoop, h1, h2]

theorem outlineLoop_accept (pixels : Pixels) (start position : ℤ × ℤ) (d : ℕ)
    (fuel : ℕ) (acc : List (ℤ × ℤ)) (h1 : pstep position d ≠ start)
    (h2 : pixel_test pixels (pstep position d) = true) :
    outlineLoop pixels start (fuel + 1) position d acc =
      outlineLoop pixels start fuel (pstep position d) (next_outline_direction d)
        (pstep position d :: acc) := by
  simp [outlineLoop, h1, h2]

/-- On a fully non-transparent N by N grid the acceptance test of
find_outline is exactly the bounds test of the square. -/
theorem pixel_test_filled_square (N : ℕ) (pixels : Pixels)
    (hrows : pixels.length = N)
    (hcols : ∀ row ∈ pixels, row.length = N)
    (halpha : ∀ row ∈ pixels, ∀ c ∈ row, c.a ≠ 0)
    (p : ℤ × ℤ) : pixel_test pixels p = in_square N p := by
  have hhead : (pixels.headD []).length = N ∨ N = 0 := by
    cases pixels with
    | nil => right; simpa using hrows.symm
    | cons r rest => left; exact hcols r (List.mem_cons_self r rest)
  by_cases hy : 0 ≤ p.2 ∧ p.2 < (N : ℤ)
  · by_cases hx : 0 ≤ p.1 ∧ p.1 < (N : ℤ)
    · have hN0 : N ≠ 0 := by omega
      have hhead2 : (pixels.headD []).length = N := by omega
      have hylt : p.2.toNat < pixels.length := by omega
      have hrow : pixels.getD p.2.toNat [] = pixels[p.2.toNat] :=
        List.getD_eq_getElem pixels [] hylt
      have hrowmem : pixels[p.2.toNat] ∈ pixels := List.getElem_mem hylt
      have hrowlen : pixels[p.2.toNat].length = N := hcols _ hrowmem
      have hxlt : p.1.toNat < pixels[p.2.toNat].length := by omega
      have hcell : pixels[p.2.toNat].getD p.1.toNat (Color.mk 0 0 0 0) =
          pixels[p.2.toNat][p.1.toNat] := List.getD_eq_getElem _ _ hxlt
      have hcellmem : pixels[p.2.toNat][p.1.toNat] ∈ pixels[p.2.toNat] :=
        List.getElem_mem hxlt
      have ha := halpha _ hrowmem _ hcellmem
      unfold pixel_test in_square
      rw [hrow, hcell]
      simp only [hrows, hhead2]
      rw [decide_eq_true (by omega : 0 ≤ p.2), decide_eq_true (by omega : p.2 < (N : ℤ)),
        decide_eq_true (by omega : 0 ≤ p.1), decide_eq_true (by omega : p.1 < (N : ℤ)),
        decide_eq_true ha, decide_eq_true (by omega : 0 ≤ p.1 ∧ p.1 < (N : ℤ) ∧ 0 ≤ p.2 ∧ p.2 < (N : ℤ))]
      rfl
    · unfold pixel_test in_square
      have hhx : ¬ (0 ≤ p.1 ∧ p.1 < ((pixels.headD []).length : ℤ)) := by
        rcases hhead with h | h
        · rw [h]; exact hx
        · rw [h] at hy; omega
      rw [decide_eq_false (by omega : ¬ (0 ≤ p.1 ∧ p.1 < (N : ℤ) ∧ 0 ≤ p.2 ∧ p.2 < (N : ℤ)))]
      rcases Classical.em (0 ≤ p.1) with h1 | h1
      · rw [decide_eq_false (by omega : ¬ p.1 < ((pixels.headD []).length : ℤ))]
        simp
      · rw [decide_eq_false h1]
        simp
  · unfold pixel_test in_square
    rw [hrows]
    rw [decide_eq_false (by omega : ¬ (0 ≤ p.1 ∧ p.1 < (N : ℤ) ∧ 0 ≤ p.2 ∧ p.2 < (N : ℤ)))]
    rcases Classical.em (0 ≤ p.2) with h1 | h1
    · rw [decide_eq_false (by omega : ¬ p.2 < (N : ℤ))]
      simp
    · rw [decide_eq_false h1]
      simp

theorem pair_ne (a b c d : ℤ) (h : ¬ (a = c ∧ b = d)) : (a, b) ≠ (c, d) := by
  intro hcon
  rw [Prod.mk.injEq] at hcon
  exact h hcon

theorem in_square_mk_false (N : ℕ) (x y : ℤ)
    (h : ¬ (0 ≤ x ∧ x < (N : ℤ) ∧ 0 ≤ y ∧ y < (N : ℤ))) :
    in_square N (x, y) = false := decide_eq_false h

theorem in_square_mk_true (N : ℕ) (x y : ℤ)
    (h : 0 ≤ x ∧ x < (N : ℤ) ∧ 0 ≤ y ∧ y < (N : ℤ)) :
    in_square N (x, y) = true := decide_eq_true h

/-- Tracing a filled square, opening phase: from the start (0,0) with
direction UPPER_RIGHT, one failed probe up-right then one accepted step
right, reaching (1,0). -/
theorem outline_phase_start (N : ℕ) (pixels : Pixels) (hN : 2 ≤ N)
    (hpix : ∀ p, pixel_test pixels p = in_square N p) (f : ℕ) (acc : List (ℤ × ℤ)) :
    outlineLoop pixels (0, 0) (2 + f) (0, 0) 7 acc =
      outlineLoop pixels (0, 0) f (1, 0) 7 ((1, 0) :: acc) := by
  have s1 : pstep ((0 : ℤ), (0 : ℤ)) 7 = (1, -1) := by
    simp only [pstep, show direction_coordinates 7 = ((1 : ℤ), (-1 : ℤ)) from rfl]
    rw [Prod.mk.injEq]
    omega
  have s2 : pstep ((0 : ℤ), (0 : ℤ)) 6 = (1, 0) := by
    simp only [pstep, show direction_coordinates 6 = ((1 : ℤ), (0 : ℤ)) from rfl]
    rw [Prod.mk.injEq]
    omega
  rw [show 2 + f = (f + 1) + 1 from by omega]
  rw [outlineLoop_fail _ _ _ _ _ _ (by rw [s1]; exact pair_ne _ _ _ _ (by omega))
    (by rw [hpix, s1]; exact in_square_mk_false N _ _ (by omega))]
  rw [show next_clockwise 7 = 6 from rfl]
  rw [outlineLoop_accept _ _ _ _ _ _ (by rw [s2]; exact pair_ne _ _ _ _ (by omega))
    (by rw [hpix, s2]; exact in_square_mk_true N _ _ (by omega))]
  rw [s2, show next_outline_direction 6 = 7 from rfl]

/-- Tracing a filled square, top edge: from (x,0) with direction
UPPER_RIGHT the loop alternates a failed up-right probe and an accepted
step right until it reaches the top-right pixel (N-1,0). -/
theorem outline_top_run (N : ℕ) (pixels : Pixels) (hN : 2 ≤ N)
    (hpix : ∀ p, pixel_test pixels p = in_square N p) :
    ∀ (k : ℕ) (x : ℤ) (f : ℕ) (acc : List (ℤ × ℤ)), 1 ≤ x → x + k = (N : ℤ) - 1 →
      outlineLoop pixels (0, 0) (2 * k + f) (x, 0) 7 acc =
        outlineLoop pixels (0, 0) f ((N : ℤ) - 1, 0) 7
          ((List.range k).map (fun (i : ℕ) => ((N : ℤ) - 1 - (i : ℤ), (0 : ℤ))) ++ acc) := by
  intro k
  induction k with
  | zero =>
    intro x f acc hx hxk
    have hxe : x = (N : ℤ) - 1 := by omega
    subst hxe
    rw [show 2 * 0 + f = f from by omega]
    simp
  | succ k ih =>
    intro x f acc hx hxk
    have s1 : pstep (x, (0 : ℤ)) 7 = (x + 1, -1) := by
      simp only [pstep, show direction_coordinates 7 = ((1 : ℤ), (-1 : ℤ)) from rfl]
      rw [Prod.mk.injEq]
      omega
    have s2 : pstep (x, (0 : ℤ)) 6 = (x + 1, 0) := by
      simp only [pstep, show direction_coordinates 6 = ((1 : ℤ), (0 : ℤ)) from rfl]
      rw [Prod.mk.injEq]
      omega
    rw [show 2 * (k + 1) + f = ((2 * k + f) + 1) + 1 from by omega]
    rw [outlineLoop_fail _ _ _ _ _ _ (by rw [s1]; exact pair_ne _ _ _ _ (by omega))
      (by rw [hpix, s1]; exact in_square_mk_false N _ _ (by omega))]
    rw [show next_clockwise 7 = 6 from rfl]
    rw [outlineLoop_accept _ _ _ _ _ _ (by rw [s2]; exact pair_ne _ _ _ _ (by omega))
      (by rw [hpix, s2]; exact in_square_mk_true N _ _ (by omega))]
    rw [s2, show next_outline_direction 6 = 7 from rfl]
    rw [ih (x + 1) f ((x + 1, 0) :: acc) (by omega) (by omega)]
    have hlast : (N : ℤ) - 1 - (k : ℤ) = x + 1 := by omega
    rw [List.range_succ, List.map_append, List.append_assoc]
    simp [hlast]

/-- Tracing a filled square, top-right corner: three failed probes
(up-right, right, down-right) then an accepted step down to (N-1,1). -/
theorem outline_corner_A (N : ℕ) (pixels : Pixels) (hN : 2 ≤ N)
    (hpix : ∀ p, pixel_test pixels p = in_square N p) (f : ℕ) (acc : List (ℤ × ℤ)) :
    outlineLoop pixels (0, 0) (4 + f) ((N : ℤ) - 1, 0) 7 acc =
      outlineLoop pixels (0, 0) f ((N : ℤ) - 1, 1) 5 (((N : ℤ) - 1, 1) :: acc) := by
  have s1 : pstep ((N : ℤ) - 1, (0 : ℤ)) 7 = ((N : ℤ), -1) := by
    simp only [pstep, show direction_coordinates 7 = ((1 : ℤ), (-1 : ℤ)) from rfl]
    rw [Prod.mk.injEq]
    omega
  have s2 : pstep ((N : ℤ) - 1, (0 : ℤ)) 6 = ((N : ℤ), 0) := by
    simp only [pstep, show direction_coordinates 6 = ((1 : ℤ), (0 : ℤ)) from rfl]
    rw [Prod.mk.injEq]
    omega
  have s3 : pstep ((N : ℤ) - 1, (0 : ℤ)) 5 = ((N : ℤ), 1) := by
    simp only [pstep, show direction_coordinates 5 = ((1 : ℤ), (1 : ℤ)) from rfl]
    rw [Prod.mk.injEq]
    omega
  have s4 : pstep ((N : ℤ) - 1, (0 : ℤ)) 4 = ((N : ℤ) - 1, 1) := by
    simp only [pstep, show direction_coordinates 4 = ((0 : ℤ), (1 : ℤ)) from rfl]
    rw [Prod.mk.injEq]
    omega
  rw [show 4 + f = ((((f + 1) + 1) + 1) + 1) from by omega]
  rw [outlineLoop_fail _ _ _ _ _ _ (by rw [s1]; exact pair_ne _ _ _ _ (by omega))
    (by rw [hpix, s1]; exact in_square_mk_false N _ _ (by omega))]
  rw [show next_clockwise 7 = 6 from rfl]
  rw [outlineLoop_fail _ _ _ _ _ _ (by rw [s2]; exact pair_ne _ _ _ _ (by omega))
    (by rw [hpix, s2]; exact in_square_mk_false N _ _ (by omega))]
  rw [show next_clockwise 6 = 5 from rfl]
  rw [outlineLoop_fail _ _ _ _ _ _ (by rw [s3]; exact pair_ne _ _ _ _ (by omega))
    (by rw [hpix, s3]; exact in_square_mk_false N _ _ (by omega))]
  rw [show next_clockwise 5 = 4 from rfl]
  rw [outlineLoop_accept _ _ _ _ _ _ (by rw [s4]; exact pair_ne _ _ _ _ (by omega))
    (by rw [hpix, s4]; exact in_square_mk_true N _ _ (by omega))]
  rw [s4, show next_outline_direction 4 = 5 from rfl]

/-- Tracing a filled square, right edge: from (N-1,y) with direction
LOWER_RIGHT the loop alternates a failed down-right probe and an accepted
step down until it reaches the bottom-right pixel (N-1,N-1). -/
theorem outline_right_run (N : ℕ) (pixels : Pixels) (hN : 2 ≤ N)
    (hpix : ∀ p, pixel_test pixels p = in_square N p) :
    ∀ (k : ℕ) (y : ℤ) (f : ℕ) (acc : List (ℤ × ℤ)), 1 ≤ y → y + k = (N : ℤ) - 1 →
      outlineLoop pixels (0, 0) (2 * k + f) ((N : ℤ) - 1, y) 5 acc =
        outlineLoop pixels (0, 0) f ((N : ℤ) - 1, (N : ℤ) - 1) 5
          ((List.range k).map (fun (i : ℕ) => ((N : ℤ) - 1, (N : ℤ) - 1 - (i : ℤ))) ++ acc) := by
  intro k
  induction k with
  | zero =>
    intro y f acc hy hyk
    have hye : y = (N : ℤ) - 1 := by omega
    subst hye
    rw [show 2 * 0 + f = f from by omega]
    simp
  | succ k ih =>
    intro y f acc hy hyk
    have s1 : pstep ((N : ℤ) - 1, y) 5 = ((N : ℤ), y + 1) := by
      simp only [pstep, show direction_coordinates 5 = ((1 : ℤ), (1 : ℤ)) from rfl]
      rw [Prod.mk.injEq]
      omega
    have s2 : pstep ((N : ℤ) - 1, y) 4 = ((N : ℤ) - 1, y + 1) := by
      simp only [pstep, show direction_coordinates 4 = ((0 : ℤ), (1 : ℤ)) from rfl]
      rw [Prod.mk.injEq]
      omega
    rw [show 2 * (k + 1) + f = ((2 * k + f) + 1) + 1 from by omega]
    rw [outlineLoop_fail _ _ _ _ _ _ (by rw [s1]; exact pair_ne _ _ _ _ (by omega))
      (by rw [hpix, s1]; exact in_square_mk_false N _ _ (by omega))]
    rw [show next_clockwise 5 = 4 from rfl]
    rw [outlineLoop_accept _ _ _ _ _ _ (by rw [s2]; exact pair_ne _ _ _ _ (by omega))
      (by rw [hpix, s2]; exact in_square_mk_true N _ _ (by omega))]
    rw [s2, show next_outline_direction 4 = 5 from rfl]
    rw [ih (y + 1) f (((N : ℤ) - 1, y + 1) :: acc) (by omega) (by omega)]
    have hlast : (N : ℤ) - 1 - (k : ℤ) = y + 1 := by omega
    rw [List.range_succ, List.map_append, List.append_assoc]
    simp [hlast]

/-- Tracing a filled square, bottom-right corner: three failed probes
(down-right, down, down-left) then an accepted step left to (N-2,N-1). -/
theorem outline_corner_B (N : ℕ) (pixels : Pixels) (hN : 2 ≤ N)
    (hpix : ∀ p, pixel_test pixels p = in_square N p) (f : ℕ) (acc : List (ℤ × ℤ)) :
    outlineLoop pixels (0, 0) (4 + f) ((N : ℤ) - 1, (N : ℤ) - 1) 5 acc =
      outlineLoop pixels (0, 0) f ((N : ℤ) - 2, (N : ℤ) - 1) 3
        (((N : ℤ) - 2, (N : ℤ) - 1) :: acc) := by
  have s1 : pstep ((N : ℤ) - 1, (N : ℤ) - 1) 5 = ((N : ℤ), (N : ℤ)) := by
    simp only [pstep, show direction_coordinates 5 = ((1 : ℤ), (1 : ℤ)) from rfl]
    rw [Prod.mk.injEq]
    omega
  have s2 : pstep ((N : ℤ) - 1, (N : ℤ) - 1) 4 = ((N : ℤ) - 1, (N : ℤ)) := by
    simp only [pstep, show direction_coordinates 4 = ((0 : ℤ), (1 : ℤ)) from rfl]
    rw [Prod.mk.injEq]
    omega
  have s3 : pstep ((N : ℤ) - 1, (N : ℤ) - 1) 3 = ((N : ℤ) - 2, (N : ℤ)) := by
    simp only [pstep, show direction_coordinates 3 = ((-1 : ℤ), (1 : ℤ)) from rfl]
    rw [Prod.mk.injEq]
    omega
  have s4 : pstep ((N : ℤ) - 1, (N : ℤ) - 1) 2 = ((N : ℤ) - 2, (N : ℤ) - 1) := by
    simp only [pstep, show direction_coordinates 2 = ((-1 : ℤ), (0 : ℤ)) from rfl]
    rw [Prod.mk.injEq]
    omega
  rw [show 4 + f = ((((f + 1) + 1) + 1) + 1) from by omega]
  rw [outlineLoop_fail _ _ _ _ _ _ (by rw [s1]; exact pair_ne _ _ _ _ (by omega))
    (by rw [hpix, s1]; exact in_square_mk_false N _ _ (by omega))]
  rw [show next_clockwise 5 = 4 from rfl]
  rw [outlineLoop_fail _ _ _ _ _ _ (by rw [s2]; exact pair_ne _ _ _ _ (by omega))
    (by rw [hpix, s2]; exact in_square_mk_false N _ _ (by omega))]
  rw [show next_clockwise 4 = 3 from rfl]
  rw [outlineLoop_fail _ _ _ _ _ _ (by rw [s3]; exact pair_ne _ _ _ _ (by omega))
    (by rw [hpix, s3]; exact in_square_mk_false N _ _ (by omega))]
  rw [show next_clockwise 3 = 2 from rfl]
  rw [outlineLoop_accept _ _ _ _ _ _ (by rw [s4]; exact pair_ne _ _ _ _ (by omega))
    (by rw [hpix, s4]; exact in_square_mk_true N _ _ (by omega))]
  rw [s4, show next_outline_direction 2 = 3 from rfl]

/-- Tracing a filled square, bottom edge: from (x,N-1) with direction
LOWER_LEFT the loop alternates a failed down-left probe and an accepted
step left until it reaches the bottom-left pixel (0,N-1). -/
theorem outline_bottom_run (N : ℕ) (pixels : Pixels) (hN : 2 ≤ N)
    (hpix : ∀ p, pixel_test pixels p = in_square N p) :
    ∀ (k : ℕ) (x : ℤ) (f : ℕ) (acc : List (ℤ × ℤ)), (k : ℤ) = x → x ≤ (N : ℤ) - 2 →
      outlineLoop pixels (0, 0) (2 * k + f) (x, (N : ℤ) - 1) 3 acc =
        outlineLoop pixels (0, 0) f ((0 : ℤ), (N : ℤ) - 1) 3
          ((List.range k).map (fun (i : ℕ) => ((i : ℤ), (N : ℤ) - 1)) ++ acc) := by
  intro k
  induction k with
  | zero =>
    intro x f acc hkx hxN
    have hxe : x = 0 := by omega
    subst hxe
    rw [show 2 * 0 + f = f from by omega]
    simp
  | succ k ih =>
    intro x f acc hkx hxN
    have s1 : pstep (x, (N : ℤ) - 1) 3 = (x - 1, (N : ℤ)) := by
      simp only [pstep, show direction_coordinates 3 = ((-1 : ℤ), (1 : ℤ)) from rfl]
      rw [Prod.mk.injEq]
      omega
    have s2 : pstep (x, (N : ℤ) - 1) 2 = (x - 1, (N : ℤ) - 1) := by
      simp only [pstep, show direction_coordinates 2 = ((-1 : ℤ), (0 : ℤ)) from rfl]
      rw [Prod.mk.injEq]
      omega
    rw [show 2 * (k + 1) + f = ((2 * k + f) + 1) + 1 from by omega]
    rw [outlineLoop_fail _ _ _ _ _ _ (by rw [s1]; exact pair_ne _ _ _ _ (by omega))
      (by rw [hpix, s1]; exact in_square_mk_false N _ _ (by omega))]
    rw [show next_clockwise 3 = 2 from rfl]
    rw [outlineLoop_accept _ _ _ _ _ _ (by rw [s2]; exact pair_ne _ _ _ _ (by omega))
      (by rw [hpix, s2]; exact in_square_mk_true N _ _ (by omega))]
    rw [s2, show next_outline_direction 2 = 3 from rfl]
    rw [ih (x - 1) f ((x - 1, (N : ℤ) - 1) :: acc) (by omega) (by omega)]
    have hlast : (k : ℤ) = x - 1 := by omega
    rw [List.range_succ, List.map_append, List.append_assoc]
    simp [hlast]

/-- Tracing a filled square, bottom-left corner: three failed probes
(down-left, left, up-left) rotate the direction to UP without moving. -/
theorem outline_corner_C (N : ℕ) (pixels : Pixels) (hN : 2 ≤ N)
    (hpix : ∀ p, pixel_test pixels p = in_square N p) (f : ℕ) (acc : List (ℤ × ℤ)) :
    outlineLoop pixels (0, 0) (3 + f) ((0 : ℤ), (N : ℤ) - 1) 3 acc =
      outlineLoop pixels (0, 0) f ((0 : ℤ), (N : ℤ) - 1) 0 acc := by
  have s1 : pstep ((0 : ℤ), (N : ℤ) - 1) 3 = (-1, (N : ℤ)) := by
    simp only [pstep, show direction_coordinates 3 = ((-1 : ℤ), (1 : ℤ)) from rfl]
    rw [Prod.mk.injEq]
    omega
  have s2 : pstep ((0 : ℤ), (N : ℤ) - 1) 2 = (-1, (N : ℤ) - 1) := by
    simp only [pstep, show direction_coordinates 2 = ((-1 : ℤ), (0 : ℤ)) from rfl]
    rw [Prod.mk.injEq]
    omega
  have s3 : pstep ((0 : ℤ), (N : ℤ) - 1) 1 = (-1, (N : ℤ) - 2) := by
    simp only [pstep, show direction_coordinates 1 = ((-1 : ℤ), (-1 : ℤ)) from rfl]
    rw [Prod.mk.injEq]
    omega
  rw [show 3 + f = (((f + 1) + 1) + 1) from by omega]
  rw [outlineLoop_fail _ _ _ _ _ _ (by rw [s1]; exact pair_ne _ _ _ _ (by omega))
    (by rw [hpix, s1]; exact in_square_mk_false N _ _ (by omega))]
  rw [show next_clockwise 3 = 2 from rfl]
  rw [outlineLoop_fail _ _ _ _ _ _ (by rw [s2]; exact pair_ne _ _ _ _ (by omega))
    (by rw [hpix, s2]; exact in_square_mk_false N _ _ (by omega))]
  rw [show next_clockwise 2 = 1 from rfl]
  rw [outlineLoop_fail _ _ _ _ _ _ (by rw [s3]; exact pair_ne _ _ _ _ (by omega))
    (by rw [hpix, s3]; exact in_square_mk_false N _ _ (by omega))]
  rw [show next_clockwise 1 = 0 from rfl]

/-- Tracing a filled square, left edge: from (0,y) with direction UP the
loop alternates an accepted step up and a failed up-left probe, and the
step from (0,1) lands on the starting pixel (0,0), closing the trace. -/
theorem outline_ascend_close (N : ℕ) (pixels : Pixels) (hN : 2 ≤ N)
    (hpix : ∀ p, pixel_test pixels p = in_square N p) :
    ∀ (m : ℕ) (y : ℤ) (f : ℕ) (acc : List (ℤ × ℤ)),
      (m : ℤ) = y - 1 → 1 ≤ y → y ≤ (N : ℤ) - 1 →
      outlineLoop pixels (0, 0) (2 * m + 1 + f) ((0 : ℤ), y) 0 acc =
        some (((List.range m).map (fun (i : ℕ) => ((0 : ℤ), (i : ℤ) + 1)) ++ acc).reverse) := by
  intro m
  induction m with
  | zero =>
    intro y f acc hmy hy hyN
    have hye : y = 1 := by omega
    subst hye
    have s1 : pstep ((0 : ℤ), (1 : ℤ)) 0 = (0, 0) := by
      simp only [pstep, show direction_coordinates 0 = ((0 : ℤ), (-1 : ℤ)) from rfl]
      rw [Prod.mk.injEq]
      omega
    rw [show 2 * 0 + 1 + f = f + 1 from by omega]
    rw [outlineLoop_close _ _ _ _ _ _ s1]
    simp
  | succ m ih =>
    intro y f acc hmy hy hyN
    have s1 : pstep ((0 : ℤ), y) 0 = ((0 : ℤ), (m : ℤ) + 1) := by
      simp only [pstep, show direction_coordinates 0 = ((0 : ℤ), (-1 : ℤ)) from rfl]
      rw [Prod.mk.injEq]
      omega
    have s2 : pstep ((0 : ℤ), (m : ℤ) + 1) 1 = (-1, (m : ℤ)) := by
      simp only [pstep, show direction_coordinates 1 = ((-1 : ℤ), (-1 : ℤ)) from rfl]
      rw [Prod.mk.injEq]
      omega
    rw [show 2 * (m + 1) + 1 + f = ((2 * m + 1 + f) + 1) + 1 from by omega]
    rw [outlineLoop_accept _ _ _ _ _ _ (by rw [s1]; exact pair_ne _ _ _ _ (by omega))
      (by rw [hpix, s1]; exact in_square_mk_true N _ _ (by omega))]
    rw [s1, show next_outline_direction 0 = 1 from rfl]
    rw [outlineLoop_fail _ _ _ _ _ _ (by rw [s2]; exact pair_ne _ _ _ _ (by omega))
      (by rw [hpix, s2]; exact in_square_mk_false N _ _ (by omega))]
    rw [show next_clockwise 1 = 0 from rfl]
    rw [ih ((m : ℤ) + 1) f (((0 : ℤ), (m : ℤ) + 1) :: acc) (by omega) (by omega) (by omega)]
    rw [List.range_succ, List.map_append, List.append_assoc]
    simp

theorem getLast?_cons_of_ne_nil {α : Type} (a : α) (l : List α) (h : l ≠ []) :
    (a :: l).getLast? = l.getLast? := by
  cases l with
  | nil => exact absurd rfl h
  | cons b t => rfl

/-- Claim C2: on every pixel grid that is a filled N by N square (N at
least 2) of pixels with non-zero alpha, find_outline closes: it returns a
list of pixel coordinates that starts at the first non-transparent pixel
of the row-major scan (the corner (0,0), which is also what
outline_starting_position reports), has exactly 4N - 4 entries — one per
boundary pixel of the square — and ends at (0,1), the neighbour of the
start from which the loop's final step returns to the starting pixel,
closing the trace.  The fuel 8N - 2 + e shows any fuel of at least 8N - 2
loop iterations suffices. -/
theorem find_outline_filled_square (N : ℕ) (pixels : Pixels) (e : ℕ)
    (hN : 2 ≤ N) (hrows : pixels.length = N)
    (hcols : ∀ row ∈ pixels, row.length = N)
    (halpha : ∀ row ∈ pixels, ∀ c ∈ row, c.a ≠ 0) :
    ∃ l : List (ℤ × ℤ),
      find_outline (8 * N - 2 + e) pixels = some l ∧
      outline_starting_position pixels = some (0, 0) ∧
      l.head? = some (0, 0) ∧
      l.getLast? = some (0, 1) ∧
      l.length = 4 * N - 4 := by
  have hpix := pixel_test_filled_square N pixels hrows hcols halpha
  have hstart : outline_starting_position pixels = some (0, 0) := by
    cases pixels with
    | nil => simp at hrows; omega
    | cons r rest =>
      have hr : r.length = N := hcols r (List.mem_cons_self r rest)
      cases r with
      | nil => simp at hr; omega
      | cons c cs =>
        have hca : c.a ≠ 0 :=
          halpha _ (List.mem_cons_self _ _) c (List.mem_cons_self c cs)
        simp [outline_starting_position, scan_rows, row_first_solid, hca]
  refine ⟨((List.range (N - 2)).map (fun (i : ℕ) => ((0 : ℤ), (i : ℤ) + 1)) ++
      ((List.range (N - 2)).map (fun (i : ℕ) => ((i : ℤ), (N : ℤ) - 1)) ++
        (((N : ℤ) - 2, (N : ℤ) - 1) ::
          ((List.range (N - 2)).map (fun (i : ℕ) => ((N : ℤ) - 1, (N : ℤ) - 1 - (i : ℤ))) ++
            (((N : ℤ) - 1, 1) ::
              ((List.range (N - 2)).map (fun (i : ℕ) => ((N : ℤ) - 1 - (i : ℤ), (0 : ℤ))) ++
                ((1, 0) :: [(0, 0)]))))))).reverse, ?_, hstart, ?_, ?_, ?_⟩
  · simp only [find_outline, hstart, UPPER_RIGHT]
    rw [show 8 * N - 2 + e =
      2 + (2 * (N - 2) + (4 + (2 * (N - 2) + (4 + (2 * (N - 2) +
        (3 + (2 * (N - 2) + 1 + e))))))) from by omega]
    rw [outline_phase_start N pixels hN hpix]
    rw [outline_top_run N pixels hN hpix (N - 2) 1 _ _ (by omega) (by omega)]
    rw [outline_corner_A N pixels hN hpix]
    rw [outline_right_run N pixels hN hpix (N - 2) 1 _ _ (by omega) (by omega)]
    rw [outline_corner_B N pixels hN hpix]
    rw [outline_bottom_run N pixels hN hpix (N - 2) ((N : ℤ) - 2) _ _ (by omega) (by omega)]
    rw [outline_corner_C N pixels hN hpix]
    rw [outline_ascend_close N pixels hN hpix (N - 2) ((N : ℤ) - 1) _ _
      (by omega) (by omega) (by omega)]
  · rw [List.head?_reverse]
    rw [List.getLast?_append_of_ne_nil _ (by simp)]
    rw [List.getLast?_append_cons]
    rw [getLast?_cons_of_ne_nil _ _ (by simp)]
    rw [List.getLast?_append_cons]
    rw [getLast?_cons_of_ne_nil _ _ (by simp)]
    rw [List.getLast?_append_cons]
    rfl
  · rw [List.getLast?_reverse]
    by_cases h2 : N = 2
    · subst h2
      decide
    · obtain ⟨m, hm⟩ : ∃ m, N - 2 = m + 1 := ⟨N - 3, by omega⟩
      rw [hm, List.range_succ_eq_map, List.map_cons]
      rw [List.head?_append_of_ne_nil _ (by simp)]
      simp
  · rw [List.length_reverse]
    simp only [List.length_append, List.length_map, List.length_range,
      List.length_cons, List.length_nil]
    omega

/-- Witness for claim C2: the concrete 2 by 2 fully opaque grid. -/
theorem find_outline_filled_square_witness :
    (2 ≤ 2 ∧
      (List.replicate 2 (List.replicate 2 (Color.mk 255 255 255 255)) : Pixels).length = 2 ∧
      (∀ row ∈ (List.replicate 2 (List.replicate 2 (Color.mk 255 255 255 255)) : Pixels),
        row.length = 2) ∧
      (∀ row ∈ (List.replicate 2 (List.replicate 2 (Color.mk 255 255 255 255)) : Pixels),
        ∀ c ∈ row, c.a ≠ 0)) ∧
    (∃ l : List (ℤ × ℤ),
      find_outline (8 * 2 - 2 + 0)
          (List.replicate 2 (List.replicate 2 (Color.mk 255 255 255 255))) = some l ∧
      outline_starting_position
          (List.replicate 2 (List.replicate 2 (Color.mk 255 255 255 255))) = some (0, 0) ∧
      l.head? = some (0, 0) ∧
      l.getLast? = some (0, 1) ∧
      l.length = 4 * 2 - 4) :=
  ⟨⟨by norm_num, by decide, by decide, by decide⟩,
    find_outline_filled_square 2
      (List.replicate 2 (List.replicate 2 (Color.mk 255 255 255 255))) 0
      (by norm_num) (by decide) (by decide) (by decide)⟩

end Marionette
